import Mathlib

/-!
Verification of the bookmark-tree construction core of pdf-outliner
(src/pdf_outliner/core.py), shallowly embedded in Lean 4.

The embedding follows the Python source:

* `Heading`, with the pydantic field constraints of core.py lines 22-27
  captured by `Heading.valid` (level between 1 and 6, page at least 1,
  title an arbitrary string).
* `DocumentOutline(**data)` validation: pydantic raises unless every
  heading satisfies its field constraints; `outlineValid` captures this.
* `add_bookmarks_to_pdf` (core.py lines 137-199): the loop over
  `outline.headings` maintaining `parent_stack`.  The pypdf writer is
  modelled by the list `BuildState.nodes` of created outline items in
  creation order; `writer.add_outline_item title page parent` appends an
  `OutlineItem` whose `parent` field is the index of the parent item in
  that list (`none` for a top-level item).  Since pypdf appends each new
  item at the end of its parent's child list, the creation-order list
  together with the parent indices determines the bookmark tree and its
  depth-first structure completely.  A skipped heading's stderr message
  names exactly the heading's title and page; warnings are recorded as
  `(title, page)` pairs.  Python list primitives that can raise
  `IndexError` (`pop` from an empty list, out-of-range index assignment)
  are modelled in the `Except String` monad.
* `analyze_pdf_with_llm`'s deterministic text preparation (core.py lines
  79-87): `buildDocumentText` and `truncateText`.
-/

/-- One detected heading, mirroring the `Heading` pydantic model of
core.py.  The numeric fields are Python ints, hence `Int`. -/
structure Heading where
  title : String
  level : Int
  page : Int
deriving Repr, DecidableEq

/-- The pydantic field constraints of `Heading` (core.py lines 25-27):
`level` has `ge=1, le=6`, `page` has `ge=1`, `title` is any `str`
(no constraint beyond being a string). -/
def Heading.valid (h : Heading) : Bool :=
  decide (1 ≤ h.level) && decide (h.level ≤ 6) && decide (1 ≤ h.page)

/-- Pydantic validation of `DocumentOutline(**data)` (core.py lines
30-33 and 131): the whole outline validates exactly when every heading
satisfies its field constraints; otherwise pydantic raises and the whole
batch is rejected. -/
def outlineValid (hs : List Heading) : Bool :=
  hs.all Heading.valid

/-- One bookmark created by `writer.add_outline_item`: title, 0-based
target page index, and the parent bookmark as an index into the
creation-order list of items (`none` = top level). -/
structure OutlineItem where
  title : String
  page_number : Int
  parent : Option Nat
deriving Repr, DecidableEq

/-- The mutable state of the loop of `add_bookmarks_to_pdf`: the items
created so far (in creation order), the `parent_stack`, and the
warnings printed to stderr, each recorded as the (title, page) pair the
message interpolates. -/
structure BuildState where
  nodes : List OutlineItem
  parent_stack : List (Option Nat)
  warnings : List (String × Int)
deriving Repr, DecidableEq

/-- State before the loop: no items, `parent_stack = [None]`
(core.py line 159), no warnings. -/
def initState : BuildState :=
  ⟨[], [none], []⟩

/-- The loop `while len(parent_stack) > heading.level: parent_stack.pop()`
(core.py lines 175-176).  `pop` on an empty Python list raises
`IndexError`, modelled as `Except.error`. -/
def popLoop (s : List (Option Nat)) (level : Int) : Except String (List (Option Nat)) :=
  if (s.length : Int) > level then
    match s with
    | [] => .error "IndexError: pop from empty list"
    | a :: t => popLoop ((a :: t).dropLast) level
  else
    .ok s
  termination_by s.length
  decreasing_by simp [List.length_dropLast]

/-- The loop `while len(parent_stack) < heading.level:
parent_stack.append(parent_stack[-1])` (core.py lines 189-190).
Reading `parent_stack[-1]` from an empty list raises `IndexError`. -/
def padLoop (s : List (Option Nat)) (level : Int) : Except String (List (Option Nat)) :=
  if (s.length : Int) < level then
    match s.getLast? with
    | none => .error "IndexError: list index out of range"
    | some a => padLoop (s ++ [a]) level
  else
    .ok s
  termination_by (level - (s.length : Int)).toNat
  decreasing_by simp; omega

/-- Python list index assignment `s[i] = x` (core.py line 195): a
negative index counts from the end; an index out of range raises
`IndexError`. -/
def listSet (s : List (Option Nat)) (i : Int) (x : Option Nat) : Except String (List (Option Nat)) :=
  if 0 ≤ i ∧ i < (s.length : Int) then
    .ok (s.set i.toNat x)
  else if i < 0 ∧ 0 ≤ i + (s.length : Int) then
    .ok (s.set (i + (s.length : Int)).toNat x)
  else
    .error "IndexError: list assignment index out of range"

/-- One iteration of the `for heading in outline.headings` loop of
`add_bookmarks_to_pdf` (core.py lines 161-195), for a document with
`numPages` pages (`len(writer.pages)`). -/
def step (numPages : Nat) (st : BuildState) (h : Heading) : Except String BuildState := do
  let page_num : Int := h.page - 1
  if page_num < 0 ∨ page_num ≥ (numPages : Int) then
    return { st with warnings := st.warnings ++ [(h.title, h.page)] }
  else
    let stack ← popLoop st.parent_stack h.level
    let parent : Option Nat := (stack.getLast?).getD none
    let bookmark : Nat := st.nodes.length
    let nodes := st.nodes ++ [⟨h.title, page_num, parent⟩]
    let stack ← padLoop stack h.level
    let stack ←
      if (stack.length : Int) = h.level then
        Except.ok (stack ++ [some bookmark])
      else
        listSet stack h.level (some bookmark)
    return ⟨nodes, stack, st.warnings⟩

/-- The loop of `add_bookmarks_to_pdf` run from an arbitrary state. -/
def runFrom (numPages : Nat) (st : BuildState) (hs : List Heading) : Except String BuildState :=
  hs.foldlM (step numPages) st

/-- `add_bookmarks_to_pdf` (core.py lines 137-199), restricted to its
deterministic core: the input document contributes only its page count
`numPages`, the outline contributes its heading list. -/
def add_bookmarks_to_pdf (numPages : Nat) (hs : List Heading) : Except String BuildState :=
  runFrom numPages initState hs

/-- Concatenation of per-page text with page markers
(core.py lines 79-82). -/
def buildDocumentText (pages : List (Int × String)) : String :=
  pages.foldl (fun acc p => acc ++ "\n--- PAGE " ++ toString p.1 ++ " ---\n" ++ p.2) ""

/-- The character budget `max_chars` of core.py line 85. -/
def max_chars : Nat := 50000

/-- The truncation of core.py lines 86-87: text longer than `max_chars`
is cut to its first `max_chars` characters and a truncation marker is
appended; shorter text passes through unchanged. -/
def truncateText (s : String) : String :=
  if s.length > max_chars then
    (String.mk (s.toList.take max_chars)) ++ "\n\n[Document truncated...]"
  else
    s

/-! ## Specification-side definitions

These describe the intended tree shape against which the builder is
compared: the index of the most recent heading at a given level, and
the parent a heading should receive under the nesting implied by the
levels. -/

/-- Index (offset by `n`) of the last heading in `hs` whose level is
`d`, scanning left to right. -/
def lastIdxAux (n : Nat) (hs : List Heading) (d : Int) : Option Nat :=
  match hs with
  | [] => none
  | h :: rest =>
    match lastIdxAux (n + 1) rest d with
    | some k => some k
    | none => if h.level = d then some n else none

/-- Index of the most recent (last) heading in `hs` whose level is
exactly `d`, if any. -/
def lastIdxAtLevel (hs : List Heading) (d : Int) : Option Nat :=
  lastIdxAux 0 hs d

/-- The parent the heading at position `i` should receive: the most
recent earlier heading whose level is one less than its own
(`none` when there is no such heading, i.e. a top-level node). -/
def specParent (hs : List Heading) (i : Nat) : Option Nat :=
  match hs.get? i with
  | none => none
  | some h => lastIdxAtLevel (hs.take i) (h.level - 1)

/-- Level of the last heading of the list (0 for the empty list, the
level of the virtual root). -/
def lastLevel (hs : List Heading) : Int :=
  match hs.getLast? with
  | none => 0
  | some h => h.level

/-- The parent stack the builder holds after a well-formed prefix
`hs`: slot `d` carries the most recent heading of level `d`
(slot 0 carries the root sentinel `none`). -/
def canonicalStack (hs : List Heading) : List (Option Nat) :=
  (List.range ((lastLevel hs).toNat + 1)).map (fun (d : Nat) => lastIdxAtLevel hs (d : Int))

/-- The outline items a run over `hs` should create when every page is
valid: one per heading, in input order, each targeting page
`h.page - 1` with parent `specParent`. -/
def canonicalNodes (hs : List Heading) : List OutlineItem :=
  (List.range hs.length).map (fun i =>
    match hs.get? i with
    | none => ⟨"", 0, none⟩
    | some h => ⟨h.title, h.page - 1, specParent hs i⟩)

/-- Well-formedness of a level sequence relative to the level of the
preceding heading (`prev`, initially 0 for the virtual root): every
level is at least 1 and exceeds its predecessor by at most one. -/
def wellFormedFrom (prev : Int) : List Int → Bool
  | [] => true
  | l :: rest => (decide (1 ≤ l) && decide (l ≤ prev + 1)) && wellFormedFrom l rest

/-- A monotonic well-formed level sequence: starts at 1 (at most one
more than the virtual root level 0) and never jumps up by more than
one. -/
def wellFormed (ls : List Int) : Bool :=
  wellFormedFrom 0 ls

/-! ## Basic lemmas about the loop primitives -/

/-- The contraction loop with a nonnegative target level keeps the
first `level` stack entries (and cannot underflow). -/
theorem popLoop_ok (level : Int) (hl : 0 ≤ level) :
    ∀ (n : Nat) (s : List (Option Nat)), s.length ≤ n →
      popLoop s level = .ok (s.take level.toNat) := by
  intro n
  induction n with
  | zero =>
    intro s hs
    have : s = [] := List.length_eq_zero.mp (Nat.le_zero.mp hs)
    subst this
    rw [popLoop.eq_def]
    simp
    omega
  | succ n ih =>
    intro s hs
    rw [popLoop.eq_def]
    by_cases hgt : (s.length : Int) > level
    · rw [if_pos hgt]
      match s with
      | [] => simp at hgt; omega
      | a :: t =>
        show popLoop ((a :: t).dropLast) level = Except.ok (List.take level.toNat (a :: t))
        have hdl : (a :: t).dropLast.length ≤ n := by
          simp [List.length_dropLast] at *
          omega
        rw [ih _ hdl]
        congr 1
        have h1 : level.toNat < (a :: t).length := by
          simp at hgt ⊢
          omega
        rw [List.dropLast_eq_take]
        rw [List.take_take]
        congr 1
        simp at h1 ⊢
        omega
    · rw [if_neg hgt]
      have : s.length ≤ level.toNat := by omega
      rw [List.take_of_length_le this]

/-- A stack already at most `level` entries long is left untouched by
the contraction loop. -/
theorem popLoop_of_le (s : List (Option Nat)) (level : Int)
    (h : (s.length : Int) ≤ level) : popLoop s level = .ok s := by
  rw [popLoop.eq_def]
  rw [if_neg (by omega)]

/-- A stack already at least `level` entries long is left untouched by
the gap-filling loop. -/
theorem padLoop_of_ge (s : List (Option Nat)) (level : Int)
    (h : level ≤ (s.length : Int)) : padLoop s level = .ok s := by
  rw [padLoop.eq_def]
  rw [if_neg (by omega)]

/-- The gap-filling loop appends copies of the current deepest stack
entry until the stack reaches `level` entries. -/
theorem padLoop_pad (level : Int) :
    ∀ (k : Nat) (s : List (Option Nat)) (a : Option Nat),
      (level - (s.length : Int)).toNat ≤ k → s.getLast? = some a →
      padLoop s level = .ok (s ++ List.replicate (level - (s.length : Int)).toNat a) := by
  intro k
  induction k with
  | zero =>
    intro s a hk hlast
    have : level ≤ (s.length : Int) := by omega
    rw [padLoop_of_ge s level this]
    have : (level - (s.length : Int)).toNat = 0 := by omega
    rw [this]
    simp
  | succ k ih =>
    intro s a hk hlast
    by_cases hlt : (s.length : Int) < level
    · rw [padLoop.eq_def, if_pos hlt, hlast]
      show padLoop (s ++ [a]) level = _
      have hlast2 : (s ++ [a]).getLast? = some a := by simp
      have hk2 : (level - ((s ++ [a]).length : Int)).toNat ≤ k := by
        simp
        omega
      rw [ih (s ++ [a]) a hk2 hlast2]
      rw [List.append_assoc]
      congr 1
      simp only [List.singleton_append, List.length_append, List.length_cons, List.length_nil]
      rw [← List.replicate_succ]
      congr 1
      congr 1
      push_cast
      omega
    · rw [padLoop_of_ge s level (by omega)]
      have : (level - (s.length : Int)).toNat = 0 := by omega
      rw [this]
      simp

/-! ## Lemmas about running the loop -/

theorem runFrom_nil (N : Nat) (st : BuildState) : runFrom N st [] = .ok st := rfl

theorem runFrom_cons (N : Nat) (st : BuildState) (h : Heading) (t : List Heading) :
    runFrom N st (h :: t) = (step N st h) >>= (fun st2 => runFrom N st2 t) := rfl

theorem runFrom_append (N : Nat) (l1 l2 : List Heading) :
    ∀ st, runFrom N st (l1 ++ l2) = (runFrom N st l1) >>= (fun s => runFrom N s l2) := by
  induction l1 with
  | nil =>
    intro st
    simp [runFrom_nil]
    rfl
  | cons h t ih =>
    intro st
    rw [List.cons_append, runFrom_cons, runFrom_cons]
    cases e : step N st h with
    | error msg => rfl
    | ok st2 =>
      show runFrom N st2 (t ++ l2) = _
      rw [ih st2]
      rfl

/-! ## Small reduction lemmas for the Except monad -/

@[simp]
theorem exbind_ok {α β : Type} (a : α) (f : α → Except String β) :
    (Except.ok a >>= f) = f a := rfl

@[simp]
theorem exbind_error {α β : Type} (e : String) (f : α → Except String β) :
    ((Except.error e : Except String α) >>= f) = Except.error e := rfl

@[simp]
theorem exmap_ok {α β : Type} (f : α → β) (a : α) :
    (Except.ok a : Except String α).map f = Except.ok (f a) := rfl

@[simp]
theorem exmap_error {α β : Type} (f : α → β) (e : String) :
    (Except.error e : Except String α).map f = Except.error e := rfl

/-- The pure of the Except String monad is Except.ok. -/
@[simp]
theorem expure_eq {α : Type} (a : α) : (pure a : Except String α) = Except.ok a := rfl

@[simp]
theorem exfmap_ok {α β : Type} (f : α → β) (a : α) :
    (f <$> (Except.ok a : Except String α)) = Except.ok (f a) := rfl

@[simp]
theorem exfmap_error {α β : Type} (f : α → β) (e : String) :
    (f <$> (Except.error e : Except String α)) = Except.error e := rfl

/-- Warnings only accumulate: running one iteration from a state with
warning list `w` is running it with an empty warning list and
prepending `w` to whatever it emits. -/
theorem step_warnings (N : Nat) (n : List OutlineItem) (s : List (Option Nat))
    (w : List (String × Int)) (h : Heading) :
    step N ⟨n, s, w⟩ h =
      (step N ⟨n, s, []⟩ h).map (fun r => ⟨r.nodes, r.parent_stack, w ++ r.warnings⟩) := by
  simp only [step]
  by_cases hc : (h.page - 1 < 0 ∨ h.page - 1 ≥ (N : Int))
  · rw [if_pos hc, if_pos hc]
    simp
  · rw [if_neg hc, if_neg hc]
    cases e : popLoop s h.level with
    | error msg => simp [e]
    | ok stack =>
      simp only [e, exbind_ok]
      cases e2 : padLoop stack h.level with
      | error msg => simp [e2]
      | ok stack2 =>
        simp only [e2, exbind_ok]
        by_cases hlen : ((stack2.length : Int) = h.level)
        · rw [if_pos hlen, if_pos hlen]
          simp
        · rw [if_neg hlen, if_neg hlen]
          cases e3 : listSet stack2 h.level (some n.length) with
          | error msg => simp [e3]
          | ok stack3 => simp [e3]

/-- Warnings only accumulate across the whole loop: the nodes and the
stack produced by a run never depend on previously emitted warnings,
which are just carried along. -/
theorem runFrom_warnings (N : Nat) (hs : List Heading) :
    ∀ (n : List OutlineItem) (s : List (Option Nat)) (w : List (String × Int)),
      runFrom N ⟨n, s, w⟩ hs =
        (runFrom N ⟨n, s, []⟩ hs).map (fun r => ⟨r.nodes, r.parent_stack, w ++ r.warnings⟩) := by
  induction hs with
  | nil =>
    intro n s w
    simp [runFrom_nil]
  | cons h t ih =>
    intro n s w
    rw [runFrom_cons, runFrom_cons, step_warnings]
    cases e : step N ⟨n, s, []⟩ h with
    | error msg => simp
    | ok r =>
      obtain ⟨n2, s2, w2⟩ := r
      simp only [exmap_ok, exbind_ok]
      rw [ih n2 s2 (w ++ w2), ih n2 s2 w2]
      cases e2 : runFrom N ⟨n2, s2, []⟩ t with
      | error msg => simp
      | ok r2 => simp

/-! ## Lemmas about the specification-side functions -/

theorem lastIdxAux_append (h : Heading) (d : Int) :
    ∀ (hs : List Heading) (n : Nat),
      lastIdxAux n (hs ++ [h]) d =
        if h.level = d then some (n + hs.length) else lastIdxAux n hs d := by
  intro hs
  induction hs with
  | nil =>
    intro n
    simp [lastIdxAux]
  | cons a t ih =>
    intro n
    show (match lastIdxAux (n + 1) (t ++ [h]) d with
      | some k => some k
      | none => if a.level = d then some n else none) = _
    rw [ih (n + 1)]
    by_cases hd : h.level = d
    · rw [if_pos hd, if_pos hd]
      simp only [List.length_cons]
      congr 1
      omega
    · rw [if_neg hd, if_neg hd]
      rfl

theorem lastIdxAtLevel_append (hs : List Heading) (h : Heading) (d : Int) :
    lastIdxAtLevel (hs ++ [h]) d =
      if h.level = d then some hs.length else lastIdxAtLevel hs d := by
  show lastIdxAux 0 (hs ++ [h]) d = _
  rw [lastIdxAux_append]
  simp [lastIdxAtLevel]

/-- No heading of level at most 0 exists in a list whose levels are all
at least 1. -/
theorem lastIdxAux_none (d : Int) (hd : d ≤ 0) :
    ∀ (hs : List Heading) (n : Nat), (∀ x ∈ hs, 1 ≤ x.level) →
      lastIdxAux n hs d = none := by
  intro hs
  induction hs with
  | nil =>
    intro n _
    rfl
  | cons a t ih =>
    intro n hlev
    show (match lastIdxAux (n + 1) t d with
      | some k => some k
      | none => if a.level = d then some n else none) = none
    rw [ih (n + 1) (fun x hx => hlev x (List.mem_cons_of_mem a hx))]
    have : a.level ≠ d := by
      have := hlev a (List.mem_cons_self a t)
      omega
    rw [if_neg this]

theorem lastIdxAtLevel_none (hs : List Heading) (d : Int) (hd : d ≤ 0)
    (hlev : ∀ x ∈ hs, 1 ≤ x.level) : lastIdxAtLevel hs d = none :=
  lastIdxAux_none d hd hs 0 hlev

theorem wellFormedFrom_append (l : Int) :
    ∀ (ls : List Int) (p : Int),
      wellFormedFrom p (ls ++ [l]) =
        (wellFormedFrom p ls && (decide (1 ≤ l) && decide (l ≤ (ls.getLast?.getD p) + 1))) := by
  intro ls
  induction ls with
  | nil =>
    intro p
    simp [wellFormedFrom]
  | cons a t ih =>
    intro p
    show ((decide (1 ≤ a) && decide (a ≤ p + 1)) && wellFormedFrom a (t ++ [l])) = _
    rw [ih a]
    show _ = ((decide (1 ≤ a) && decide (a ≤ p + 1)) && wellFormedFrom a t &&
      (decide (1 ≤ l) && decide (l ≤ ((a :: t).getLast?.getD p) + 1)))
    have : (a :: t).getLast?.getD p = t.getLast?.getD a := by
      cases t with
      | nil => rfl
      | cons b u => simp [List.getLast?]
    rw [this]
    simp [Bool.and_assoc]

theorem wellFormedFrom_levels (ls : List Int) :
    ∀ p, wellFormedFrom p ls = true → ∀ l ∈ ls, 1 ≤ l := by
  induction ls with
  | nil =>
    intro p _ l hl
    simp at hl
  | cons a t ih =>
    intro p hwf l hl
    have hwf2 : ((decide (1 ≤ a) && decide (a ≤ p + 1)) && wellFormedFrom a t) = true := hwf
    simp only [Bool.and_eq_true, decide_eq_true_eq] at hwf2
    rcases List.mem_cons.mp hl with rfl | hmem
    · exact hwf2.1.1
    · exact ih a hwf2.2 l hmem

theorem lastLevel_append (hs : List Heading) (h : Heading) :
    lastLevel (hs ++ [h]) = h.level := by
  simp [lastLevel, List.getLast?_concat]

theorem lastLevel_map (hs : List Heading) :
    (hs.map Heading.level).getLast?.getD 0 = lastLevel hs := by
  rw [List.getLast?_map]
  simp [lastLevel]
  cases hs.getLast? with
  | none => rfl
  | some h => rfl

theorem specParent_append_lt (hs : List Heading) (h : Heading) (i : Nat)
    (hi : i < hs.length) : specParent (hs ++ [h]) i = specParent hs i := by
  unfold specParent
  rw [List.get?_append hi]
  rw [List.take_append_of_le_length (Nat.le_of_lt hi)]

theorem specParent_append_self (hs : List Heading) (h : Heading) :
    specParent (hs ++ [h]) hs.length = lastIdxAtLevel hs (h.level - 1) := by
  unfold specParent
  rw [List.get?_concat_length]
  rw [List.take_left]

theorem canonicalNodes_length (hs : List Heading) :
    (canonicalNodes hs).length = hs.length := by
  simp [canonicalNodes]

theorem canonicalNodes_append (hs : List Heading) (h : Heading) :
    canonicalNodes (hs ++ [h]) =
      canonicalNodes hs ++ [⟨h.title, h.page - 1, lastIdxAtLevel hs (h.level - 1)⟩] := by
  unfold canonicalNodes
  rw [List.length_append]
  simp only [List.length_cons, List.length_nil]
  rw [List.range_succ, List.map_append]
  congr 1
  · apply List.map_congr_left
    intro i hi
    have hi2 : i < hs.length := List.mem_range.mp hi
    have e2 : (hs ++ [h]).get? i = hs.get? i := List.get?_append hi2
    cases e : hs.get? i with
    | none =>
      rw [List.get?_eq_none] at e
      omega
    | some x =>
      simp only [e2, e, specParent_append_lt hs h i hi2]
  · simp only [List.map_cons, List.map_nil, List.get?_concat_length, specParent_append_self]

theorem canonicalStack_length (hs : List Heading) :
    (canonicalStack hs).length = (lastLevel hs).toNat + 1 := by
  simp [canonicalStack]

/-- One loop iteration on a well-formed prefix: a heading whose level
is positive and at most one more than the current deepest level, with
a valid page, is attached with parent the most recent heading one
level up, and the stack becomes the canonical stack of the extended
prefix. -/
theorem step_wellFormed (N : Nat) (hs : List Heading) (h : Heading)
    (hK : 0 ≤ lastLevel hs)
    (hl1 : 1 ≤ h.level) (hl2 : h.level ≤ lastLevel hs + 1)
    (hp1 : 1 ≤ h.page) (hp2 : h.page ≤ (N : Int)) :
    step N ⟨canonicalNodes hs, canonicalStack hs, []⟩ h =
      .ok ⟨canonicalNodes (hs ++ [h]), canonicalStack (hs ++ [h]), []⟩ := by
  have hlen : ((canonicalStack hs).length : Int) = lastLevel hs + 1 := by
    rw [canonicalStack_length]
    push_cast
    omega
  have hpop : popLoop (canonicalStack hs) h.level =
      .ok ((List.range h.level.toNat).map (fun (d : Nat) => lastIdxAtLevel hs (d : Int))) := by
    rw [popLoop_ok h.level (by omega) (canonicalStack hs).length (canonicalStack hs) (Nat.le_refl _)]
    congr 1
    unfold canonicalStack
    rw [← List.map_take, List.take_range]
    congr 1
    congr 1
    omega
  have hranne : h.level.toNat = (h.level.toNat - 1) + 1 := by omega
  have hgetLast : ((List.range h.level.toNat).map
      (fun (d : Nat) => lastIdxAtLevel hs (d : Int))).getLast? =
      some (lastIdxAtLevel hs (h.level - 1)) := by
    rw [hranne, List.range_succ, List.map_append]
    simp only [List.map_cons, List.map_nil]
    rw [List.getLast?_concat]
    congr 2
    omega
  have hpadlen : (((List.range h.level.toNat).map
      (fun (d : Nat) => lastIdxAtLevel hs (d : Int))).length : Int) = h.level := by
    simp
    omega
  have hpad : padLoop ((List.range h.level.toNat).map
      (fun (d : Nat) => lastIdxAtLevel hs (d : Int))) h.level =
      .ok ((List.range h.level.toNat).map (fun (d : Nat) => lastIdxAtLevel hs (d : Int))) := by
    apply padLoop_of_ge
    omega
  have hpage : ¬(h.page - 1 < 0 ∨ h.page - 1 ≥ (N : Int)) := by omega
  simp only [step]
  rw [if_neg hpage]
  rw [hpop]
  simp only [exbind_ok]
  rw [hpad]
  simp only [exbind_ok]
  rw [if_pos hpadlen]
  simp only [exbind_ok, expure_eq]
  congr 1
  congr 1
  · rw [canonicalNodes_append]
    congr 2
    rw [hgetLast]
    rfl
  · rw [canonicalNodes_length]
    unfold canonicalStack
    rw [lastLevel_append]
    rw [List.range_succ, List.map_append]
    congr 1
    · apply List.map_congr_left
      intro d hd
      have hd2 : d < h.level.toNat := List.mem_range.mp hd
      rw [lastIdxAtLevel_append]
      rw [if_neg (by omega)]
    · simp only [List.map_cons, List.map_nil]
      rw [lastIdxAtLevel_append]
      rw [if_pos (by omega)]

/-- Levels of a well-formed heading list are all at least 1. -/
theorem wellFormed_levels (hs : List Heading)
    (hwf : wellFormed (hs.map Heading.level) = true) :
    ∀ x ∈ hs, 1 ≤ x.level := by
  intro x hx
  exact wellFormedFrom_levels (hs.map Heading.level) 0 hwf x.level
    (List.mem_map_of_mem Heading.level hx)

/-- The last level of a well-formed heading list is nonnegative. -/
theorem wellFormed_lastLevel (hs : List Heading)
    (hwf : wellFormed (hs.map Heading.level) = true) :
    0 ≤ lastLevel hs := by
  cases e : hs.getLast? with
  | none => simp [lastLevel, e]
  | some x =>
    have hx : x ∈ hs := List.mem_of_mem_getLast? (by rw [e]; exact Option.mem_some_iff.mpr rfl)
    have := wellFormed_levels hs hwf x hx
    simp [lastLevel, e]
    omega

/-- Main loop invariant for well-formed input with valid pages: the
run succeeds and produces exactly the canonical nodes and the
canonical stack, with no warnings. -/
theorem runFrom_wellFormed (N : Nat) :
    ∀ (hs : List Heading), wellFormed (hs.map Heading.level) = true →
      (∀ h ∈ hs, 1 ≤ h.page ∧ h.page ≤ (N : Int)) →
      runFrom N initState hs = .ok ⟨canonicalNodes hs, canonicalStack hs, []⟩ := by
  intro hs
  induction hs using List.reverseRecOn with
  | nil =>
    intro _ _
    rfl
  | append_singleton hs h ih =>
    intro hwf hpg
    have hwf2 : wellFormedFrom 0 ((hs.map Heading.level) ++ [h.level]) = true := by
      rw [List.map_append] at hwf
      simp only [List.map_cons, List.map_nil] at hwf
      exact hwf
    rw [wellFormedFrom_append] at hwf2
    simp only [Bool.and_eq_true, decide_eq_true_eq] at hwf2
    obtain ⟨hwfhs, hl1, hl2⟩ := hwf2
    rw [lastLevel_map] at hl2
    have hpg1 : ∀ x ∈ hs, 1 ≤ x.page ∧ x.page ≤ (N : Int) := by
      intro x hx
      exact hpg x (List.mem_append_left [h] hx)
    have hph : 1 ≤ h.page ∧ h.page ≤ (N : Int) := by
      apply hpg h
      simp
    rw [runFrom_append]
    rw [ih hwfhs hpg1]
    simp only [exbind_ok]
    rw [runFrom_cons]
    rw [step_wellFormed N hs h (wellFormed_lastLevel hs hwfhs) hl1 hl2 hph.1 hph.2]
    simp only [exbind_ok]
    rfl

/-! ## Stack invariant: the loop never fails and never pops the root
sentinel for positive levels -/

/-- Executing one iteration on a heading with positive level and a
valid page from any state whose stack starts with the root sentinel:
the contraction and gap-filling loops succeed, the gap-filled stack
has exactly `h.level` entries (so the append branch, never the
overwrite branch, at core.py lines 192-195 executes), and exactly one
node is attached, its parent being the entry on top of the contracted
stack. -/
theorem step_ok_attach (N : Nat) (st : BuildState) (h : Heading)
    (hlev : 1 ≤ h.level) (hs0 : st.parent_stack.head? = some none)
    (hp : ¬(h.page - 1 < 0 ∨ h.page - 1 ≥ (N : Int))) :
    ∃ popped padded,
      popLoop st.parent_stack h.level = .ok popped ∧
      popped.head? = some none ∧
      padLoop popped h.level = .ok padded ∧
      (padded.length : Int) = h.level ∧
      padded.head? = some none ∧
      step N st h = .ok ⟨st.nodes ++ [⟨h.title, h.page - 1, popped.getLast?.getD none⟩],
        padded ++ [some st.nodes.length], st.warnings⟩ := by
  obtain ⟨t, hst⟩ : ∃ t, st.parent_stack = none :: t := by
    cases e : st.parent_stack with
    | nil => rw [e] at hs0; simp at hs0
    | cons a t =>
      rw [e] at hs0
      simp at hs0
      exact ⟨t, by rw [hs0]⟩
  obtain ⟨m, hm⟩ : ∃ m, h.level.toNat = m + 1 := ⟨h.level.toNat - 1, by omega⟩
  have hpop : popLoop st.parent_stack h.level = .ok (none :: t.take m) := by
    rw [popLoop_ok h.level (by omega) st.parent_stack.length st.parent_stack (Nat.le_refl _)]
    rw [hst, hm, List.take_succ_cons]
  obtain ⟨a, ha⟩ : ∃ a, (none :: t.take m).getLast? = some a := by
    cases e : (none :: t.take m).getLast? with
    | none =>
      rw [List.getLast?_eq_none_iff] at e
      simp at e
    | some a => exact ⟨a, rfl⟩
  have hpad : padLoop (none :: t.take m) h.level =
      .ok ((none :: t.take m) ++
        List.replicate ((h.level - ((none :: t.take m).length : Int)).toNat) a) :=
    padLoop_pad h.level ((h.level - ((none :: t.take m).length : Int)).toNat)
      (none :: t.take m) a (Nat.le_refl _) ha
  have hlenpop : ((none :: t.take m).length : Int) ≤ h.level := by
    simp only [List.length_cons, List.length_take]
    push_cast
    omega
  have hlenpad : ((((none :: t.take m) ++
      List.replicate ((h.level - ((none :: t.take m).length : Int)).toNat) a)).length : Int) =
      h.level := by
    rw [List.length_append, List.length_replicate]
    push_cast
    omega
  refine ⟨none :: t.take m,
    (none :: t.take m) ++
      List.replicate ((h.level - ((none :: t.take m).length : Int)).toNat) a,
    hpop, rfl, hpad, hlenpad, rfl, ?_⟩
  simp only [step]
  rw [if_neg hp]
  rw [hpop]
  simp only [exbind_ok]
  rw [hpad]
  simp only [exbind_ok]
  rw [if_pos hlenpad]
  simp only [exbind_ok, expure_eq]

/-- An out-of-range page (page - 1 negative, or at least the page
count) is skipped: one warning carrying the title and the page, no
node, stack untouched (core.py lines 165-171). -/
theorem step_skip (N : Nat) (st : BuildState) (h : Heading)
    (hp : h.page - 1 < 0 ∨ h.page - 1 ≥ (N : Int)) :
    step N st h = .ok ⟨st.nodes, st.parent_stack, st.warnings ++ [(h.title, h.page)]⟩ := by
  simp only [step]
  rw [if_pos hp]
  rfl

theorem head?_append_single {l : List (Option Nat)} (x : Option Nat)
    (hl : l.head? = some none) : (l ++ [x]).head? = some none := by
  cases l with
  | nil => simp at hl
  | cons a t =>
    simp at hl
    simp [hl]

/-- The loop, started from any state whose stack carries the root
sentinel on top of it, never raises on headings of positive level:
it always returns a state, and the root sentinel stays at the bottom
of the stack. -/
theorem runFrom_inv (N : Nat) :
    ∀ (hs : List Heading) (st : BuildState), (∀ h ∈ hs, 1 ≤ h.level) →
      st.parent_stack.head? = some none →
      ∃ st2, runFrom N st hs = .ok st2 ∧ st2.parent_stack.head? = some none := by
  intro hs
  induction hs with
  | nil =>
    intro st _ hs0
    exact ⟨st, rfl, hs0⟩
  | cons h t ih =>
    intro st hlev hs0
    by_cases hp : (h.page - 1 < 0 ∨ h.page - 1 ≥ (N : Int))
    · rw [runFrom_cons, step_skip N st h hp]
      simp only [exbind_ok]
      exact ih ⟨st.nodes, st.parent_stack, st.warnings ++ [(h.title, h.page)]⟩
        (fun x hx => hlev x (List.mem_cons_of_mem h hx)) hs0
    · obtain ⟨popped, padded, hpop, hpophd, hpad, hpadlen, hpadhd, hstep⟩ :=
        step_ok_attach N st h (hlev h (List.mem_cons_self h t)) hs0 hp
      rw [runFrom_cons, hstep]
      simp only [exbind_ok]
      exact ih _ (fun x hx => hlev x (List.mem_cons_of_mem h hx))
        (head?_append_single (some st.nodes.length) hpadhd)

/-- Evaluation form of the contraction loop for simp. -/
theorem popLoop_eval (s : List (Option Nat)) (level : Int) (h : 0 ≤ level) :
    popLoop s level = .ok (s.take level.toNat) :=
  popLoop_ok level h s.length s (Nat.le_refl _)

/-- Evaluation form of the gap-filling loop for simp. -/
theorem padLoop_eval (s : List (Option Nat)) (level : Int) (a : Option Nat)
    (ha : s.getLast? = some a) :
    padLoop s level = .ok (s ++ List.replicate ((level - (s.length : Int)).toNat) a) :=
  padLoop_pad level ((level - (s.length : Int)).toNat) s a (Nat.le_refl _) ha

/-- With a zero-page document every heading is skipped with a warning:
`page - 1` is either negative or at least 0 = the page count, so the
skip branch always fires and the loop can never raise. -/
theorem runFrom_zero (hs : List Heading) :
    ∀ st : BuildState, runFrom 0 st hs =
      .ok ⟨st.nodes, st.parent_stack, st.warnings ++ hs.map (fun h => (h.title, h.page))⟩ := by
  induction hs with
  | nil =>
    intro st
    simp [runFrom_nil]
  | cons h t ih =>
    intro st
    have hp : h.page - 1 < 0 ∨ h.page - 1 ≥ ((0 : Nat) : Int) := by omega
    rw [runFrom_cons, step_skip 0 st h hp]
    simp only [exbind_ok]
    rw [ih]
    simp

/-- One invalid heading makes the whole pydantic batch validation
fail. -/
theorem outlineValid_false_of_mem (hs : List Heading) (h : Heading)
    (hmem : h ∈ hs) (hval : Heading.valid h = false) : outlineValid hs = false := by
  rw [Bool.eq_false_iff]
  intro hall
  have := List.all_eq_true.mp hall h hmem
  rw [hval] at this
  simp at this

theorem canonicalNodes_get? (hs : List Heading) (i : Nat) (h : Heading)
    (he : hs.get? i = some h) :
    (canonicalNodes hs).get? i = some ⟨h.title, h.page - 1, specParent hs i⟩ := by
  have hi : i < hs.length := by
    by_contra hc
    rw [List.get?_eq_none.mpr (by omega)] at he
    simp at he
  unfold canonicalNodes
  rw [List.get?_map]
  rw [List.get?_eq_getElem?, List.getElem?_range hi]
  simp only [Option.map_some']
  rw [he]

/-- Correctness of `lastIdxAtLevel`: a returned index is in range,
carries exactly the requested level, and no later index does. -/
theorem lastIdxAtLevel_spec (d : Int) :
    ∀ (hs : List Heading) (j : Nat), lastIdxAtLevel hs d = some j →
      j < hs.length ∧ (hs.get? j).map Heading.level = some d ∧
      ∀ k : Nat, j < k → k < hs.length → (hs.get? k).map Heading.level ≠ some d := by
  intro hs
  induction hs using List.reverseRecOn with
  | nil =>
    intro j hj
    simp [lastIdxAtLevel, lastIdxAux] at hj
  | append_singleton hs h ih =>
    intro j hj
    rw [lastIdxAtLevel_append] at hj
    by_cases hd : h.level = d
    · rw [if_pos hd] at hj
      have hjeq : j = hs.length := by
        simpa using hj.symm
      subst hjeq
      refine ⟨by simp, ?_, ?_⟩
      · rw [List.get?_concat_length]
        simp [hd]
      · intro k hk1 hk2
        simp at hk2
        omega
    · rw [if_neg hd] at hj
      obtain ⟨hlt, hlev, hnone⟩ := ih j hj
      refine ⟨by simp; omega, ?_, ?_⟩
      · rw [List.get?_append hlt]
        exact hlev
      · intro k hk1 hk2
        simp at hk2
        by_cases hke : k = hs.length
        · subst hke
          rw [List.get?_concat_length]
          simp
          intro hcon
          exact hd hcon
        · have : k < hs.length := by omega
          rw [List.get?_append this]
          exact hnone k hk1 this

/-! ## Claims -/

/-- C4, counterexample: with a zero-page document and a non-empty
outline the builder does not raise: the single heading is skipped with
a warning and the run returns normally, contradicting the claim that
the builder propagates a structural error whenever the page count is
non-positive. -/
theorem C4_counterexample_zero_pages_no_error :
    add_bookmarks_to_pdf 0 [⟨"Intro", 1, 1⟩] = .ok ⟨[], [none], [("Intro", 1)]⟩ := by
  simp [add_bookmarks_to_pdf, runFrom, initState, step]

/-- C4, amended: the builder never raises for malformed input
(headings of positive level, any pages), and in particular it does not
fail for a non-positive page count either: page counts are natural
numbers, and for the page count 0 the builder skips every heading with
one warning each and returns normally instead of raising. -/
theorem C4_amended_never_raises (N : Nat) (hs : List Heading)
    (hlev : ∀ h ∈ hs, 1 ≤ h.level) :
    (∃ st, add_bookmarks_to_pdf N hs = .ok st) ∧
    add_bookmarks_to_pdf 0 hs =
      .ok ⟨[], [none], hs.map (fun h => (h.title, h.page))⟩ := by
  constructor
  · obtain ⟨st2, h1, _⟩ := runFrom_inv N hs initState hlev rfl
    exact ⟨st2, h1⟩
  · unfold add_bookmarks_to_pdf
    rw [runFrom_zero hs initState]
    rfl

/-- C4, witness for the amended claim. -/
theorem C4_amended_never_raises_witness :
    (∃ st, add_bookmarks_to_pdf 2 [⟨"Intro", 1, 1⟩, ⟨"Deep", 5, 9⟩] = .ok st) ∧
    add_bookmarks_to_pdf 0 [⟨"Intro", 1, 1⟩, ⟨"Deep", 5, 9⟩] =
      .ok ⟨[], [none],
        ([⟨"Intro", 1, 1⟩, ⟨"Deep", 5, 9⟩] : List Heading).map (fun h => (h.title, h.page))⟩ :=
  C4_amended_never_raises 2 [⟨"Intro", 1, 1⟩, ⟨"Deep", 5, 9⟩] (by decide)

/-- C5, counterexample: a heading of level 7 is rejected by the
pydantic data model (`le=6` on the level field), and its presence
makes the whole batch fail validation — contradicting the claim that
every positive level is accepted and never causes batch rejection. -/
theorem C5_counterexample_level_seven_rejected :
    Heading.valid ⟨"Chapter", 7, 1⟩ = false ∧ outlineValid [⟨"Chapter", 7, 1⟩] = false := by
  decide

/-- C5, amended: the data model accepts exactly the levels 1..6 (with
a positive page); a heading whose level lies outside that range fails
validation and thereby rejects the whole batch, since pydantic raises
while validating `DocumentOutline`.  The builder loop itself, in
contrast, processes any heading of positive level without raising. -/
theorem C5_amended_level_range_enforced :
    (∀ h : Heading, 1 ≤ h.level → h.level ≤ 6 → 1 ≤ h.page → Heading.valid h = true) ∧
    (∀ (hs : List Heading) (h : Heading), h ∈ hs → Heading.valid h = false →
      outlineValid hs = false) ∧
    (∀ (N : Nat) (hs : List Heading), (∀ h ∈ hs, 1 ≤ h.level) →
      ∃ st, add_bookmarks_to_pdf N hs = .ok st) := by
  refine ⟨?_, ?_, ?_⟩
  · intro h h1 h2 h3
    simp [Heading.valid]
    exact ⟨⟨h1, h2⟩, h3⟩
  · intro hs h hmem hval
    exact outlineValid_false_of_mem hs h hmem hval
  · intro N hs hlev
    obtain ⟨st2, h1, _⟩ := runFrom_inv N hs initState hlev rfl
    exact ⟨st2, h1⟩

/-- C5, witness for the amended claim. -/
theorem C5_amended_level_range_enforced_witness :
    Heading.valid ⟨"Overview", 3, 2⟩ = true ∧
    outlineValid [⟨"Intro", 1, 1⟩, ⟨"Chapter", 7, 1⟩] = false ∧
    (∃ st, add_bookmarks_to_pdf 3 [⟨"Deep", 5, 2⟩] = .ok st) :=
  ⟨C5_amended_level_range_enforced.1 ⟨"Overview", 3, 2⟩ (by decide) (by decide) (by decide),
   C5_amended_level_range_enforced.2.1 [⟨"Intro", 1, 1⟩, ⟨"Chapter", 7, 1⟩] ⟨"Chapter", 7, 1⟩
     (by simp) (by decide),
   C5_amended_level_range_enforced.2.2 3 [⟨"Deep", 5, 2⟩] (by decide)⟩

/-- C6, counterexample: a heading of level 0 is rejected by the
pydantic data model (`ge=1` on the level field) and rejects the whole
batch — it is not clamped to level 1 and produces no node,
contradicting the claim. -/
theorem C6_counterexample_level_zero_rejected :
    Heading.valid ⟨"Intro", 0, 1⟩ = false ∧ outlineValid [⟨"Intro", 0, 1⟩] = false := by
  decide

/-- C6, amended: a heading with level 0 or negative fails the data
model validation (`ge=1`), so the batch containing it is rejected by
pydantic; no clamping to level 1 happens anywhere and no node is
produced for such a heading. -/
theorem C6_amended_nonpositive_level_rejected (h : Heading) (hl : h.level ≤ 0) :
    Heading.valid h = false ∧ ∀ hs : List Heading, h ∈ hs → outlineValid hs = false := by
  have hval : Heading.valid h = false := by
    unfold Heading.valid
    rw [decide_eq_false (by omega : ¬(1 ≤ h.level))]
    rfl
  exact ⟨hval, fun hs hmem => outlineValid_false_of_mem hs h hmem hval⟩

/-- C6, witness for the amended claim. -/
theorem C6_amended_nonpositive_level_rejected_witness :
    Heading.valid ⟨"Intro", -2, 3⟩ = false ∧
    outlineValid [⟨"Intro", -2, 3⟩, ⟨"Next", 1, 1⟩] = false :=
  ⟨(C6_amended_nonpositive_level_rejected ⟨"Intro", -2, 3⟩ (by decide)).1,
   (C6_amended_nonpositive_level_rejected ⟨"Intro", -2, 3⟩ (by decide)).2
     [⟨"Intro", -2, 3⟩, ⟨"Next", 1, 1⟩] (by simp)⟩

/-- C7: the builder is a pure function of the outline and the page
count: equal inputs give structurally identical results (same nodes,
same parent links, same order, same page targets, same warnings). -/
theorem C7_builder_deterministic (N : Nat) (hs1 hs2 : List Heading)
    (heq : hs1 = hs2) :
    add_bookmarks_to_pdf N hs1 = add_bookmarks_to_pdf N hs2 := by
  rw [heq]

/-- C7, witness. -/
theorem C7_builder_deterministic_witness :
    add_bookmarks_to_pdf 2 [⟨"A", 1, 1⟩, ⟨"B", 2, 2⟩] =
      add_bookmarks_to_pdf 2 [⟨"A", 1, 1⟩, ⟨"B", 2, 2⟩] :=
  C7_builder_deterministic 2 [⟨"A", 1, 1⟩, ⟨"B", 2, 2⟩] [⟨"A", 1, 1⟩, ⟨"B", 2, 2⟩] rfl

/-- C8, counterexample: the data model accepts a heading whose title
is the empty string (the `title` field has no non-emptiness
constraint), contradicting the claim that the validation boundary
rejects empty titles. -/
theorem C8_counterexample_empty_title_accepted :
    Heading.valid ⟨"", 1, 1⟩ = true ∧ outlineValid [⟨"", 1, 1⟩] = true := by
  decide

/-- C8, amended: the title field is entirely unconstrained by the
validation boundary: validity of a heading never depends on its title,
and in particular the empty title is accepted. -/
theorem C8_amended_title_unconstrained :
    (∀ (t1 t2 : String) (l p : Int), Heading.valid ⟨t1, l, p⟩ = Heading.valid ⟨t2, l, p⟩) ∧
    Heading.valid ⟨"", 1, 1⟩ = true := by
  exact ⟨fun t1 t2 l p => rfl, by decide⟩

/-- C9: the page-delimited document text is sent unchanged (no
marker) when within the 50000-character budget; when it exceeds the
budget, the result is exactly the first 50000 characters followed by
the truncation marker — so its length is exactly 50025 — and in both
cases the first 50000 characters of the input are preserved
verbatim. -/
theorem C9_truncation_at_budget (pages : List (Int × String)) :
    ((buildDocumentText pages).length ≤ max_chars →
      truncateText (buildDocumentText pages) = buildDocumentText pages) ∧
    (max_chars < (buildDocumentText pages).length →
      truncateText (buildDocumentText pages) =
        String.mk ((buildDocumentText pages).toList.take max_chars) ++
          "\n\n[Document truncated...]" ∧
      (truncateText (buildDocumentText pages)).length = max_chars + 25) ∧
    (truncateText (buildDocumentText pages)).toList.take max_chars =
      (buildDocumentText pages).toList.take max_chars := by
  have hdata : (buildDocumentText pages).toList.length = (buildDocumentText pages).length := rfl
  refine ⟨?_, ?_, ?_⟩
  · intro hle
    unfold truncateText
    rw [if_neg (by omega)]
  · intro hlt
    have heq : truncateText (buildDocumentText pages) =
        String.mk ((buildDocumentText pages).toList.take max_chars) ++
          "\n\n[Document truncated...]" := by
      unfold truncateText
      rw [if_pos (by omega)]
    refine ⟨heq, ?_⟩
    rw [heq, String.length_append, String.length_mk, List.length_take]
    have hmarker : ("\n\n[Document truncated...]" : String).length = 25 := by decide
    rw [hmarker, hdata]
    omega
  · by_cases hle : (buildDocumentText pages).length ≤ max_chars
    · unfold truncateText
      rw [if_neg (by omega)]
    · unfold truncateText
      rw [if_pos (by omega)]
      show (String.mk ((buildDocumentText pages).toList.take max_chars) ++
          "\n\n[Document truncated...]").data.take max_chars = _
      rw [String.data_append]
      have hlen : max_chars ≤
          ((String.mk ((buildDocumentText pages).toList.take max_chars)).data).length := by
        show max_chars ≤ ((buildDocumentText pages).toList.take max_chars).length
        rw [List.length_take, hdata]
        omega
      rw [List.take_append_of_le_length hlen]
      show ((buildDocumentText pages).toList.take max_chars).take max_chars = _
      rw [List.take_take, Nat.min_self]

/-- C9, witness (short input passes through unchanged). -/
theorem C9_truncation_at_budget_witness :
    truncateText (buildDocumentText [(1, "hello")]) = buildDocumentText [(1, "hello")] :=
  (C9_truncation_at_budget [(1, "hello")]).1 (by decide)

/-- C3: a heading with an out-of-range page (page below 1 or above the
page count) contributes nothing but one warning carrying its title and
its page: the run over the outline with the bad heading inserted
produces exactly the nodes and the stack of the run without it, and
its warning list is the warning list of the run without it with the
pair (title, page) inserted right after the warnings of the
predecessors. -/
theorem C3_invalid_page_skipped_one_warning (N : Nat) (pre post : List Heading)
    (h : Heading) (hbad : h.page < 1 ∨ (N : Int) < h.page) (st0 : BuildState)
    (hpre : add_bookmarks_to_pdf N pre = .ok st0) :
    add_bookmarks_to_pdf N (pre ++ h :: post) =
      (add_bookmarks_to_pdf N (pre ++ post)).map (fun st =>
        ⟨st.nodes, st.parent_stack,
          st0.warnings ++ (h.title, h.page) :: st.warnings.drop st0.warnings.length⟩) := by
  obtain ⟨n0, s0, w0⟩ := st0
  unfold add_bookmarks_to_pdf at hpre ⊢
  rw [runFrom_append, hpre]
  simp only [exbind_ok]
  rw [runFrom_cons]
  have hp : h.page - 1 < 0 ∨ h.page - 1 ≥ (N : Int) := by omega
  rw [step_skip N _ h hp]
  simp only [exbind_ok]
  rw [runFrom_warnings N post n0 s0 (w0 ++ [(h.title, h.page)])]
  rw [runFrom_append, hpre]
  simp only [exbind_ok]
  rw [runFrom_warnings N post n0 s0 w0]
  cases e : runFrom N ⟨n0, s0, []⟩ post with
  | error msg => rfl
  | ok r =>
    simp only [exmap_ok]
    congr 1
    congr 1
    rw [List.drop_left]
    simp

/-- C3, witness. -/
theorem C3_invalid_page_skipped_one_warning_witness :
    add_bookmarks_to_pdf 5 ([⟨"A", 1, 1⟩] ++ ⟨"Ghost", 2, 99⟩ :: [⟨"B", 1, 2⟩]) =
      (add_bookmarks_to_pdf 5 ([⟨"A", 1, 1⟩] ++ [⟨"B", 1, 2⟩])).map (fun st =>
        ⟨st.nodes, st.parent_stack,
          (⟨[⟨"A", 0, none⟩], [none, some 0], []⟩ : BuildState).warnings ++
            ("Ghost", (99 : Int)) :: st.warnings.drop
              (⟨[⟨"A", 0, none⟩], [none, some 0], []⟩ : BuildState).warnings.length⟩) :=
  C3_invalid_page_skipped_one_warning 5 [⟨"A", 1, 1⟩] [⟨"B", 1, 2⟩] ⟨"Ghost", 2, 99⟩
    (Or.inr (by decide)) ⟨[⟨"A", 0, none⟩], [none, some 0], []⟩
    (by simp [add_bookmarks_to_pdf, runFrom, initState, step, popLoop_of_le, padLoop_of_ge])

/-- C2: a heading whose level is at least the current stack depth (in
particular one that skips levels, e.g. a level-4 heading directly
after a level-1 heading) is attached directly under the deepest
existing ancestor — the entry on top of the stack — without raising
and without creating any other node; the stack is padded with repeated
references to that deepest ancestor up to the heading's level.  The
state `st` is the one the builder reached on the preceding input
`pre`. -/
theorem C2_level_skip_attaches_to_deepest_ancestor (N : Nat) (pre : List Heading)
    (h : Heading) (st : BuildState)
    (hok : add_bookmarks_to_pdf N pre = .ok st)
    (hne : st.parent_stack ≠ [])
    (hskip : (st.parent_stack.length : Int) ≤ h.level)
    (hp1 : 1 ≤ h.page) (hp2 : h.page ≤ (N : Int)) :
    ∃ a, st.parent_stack.getLast? = some a ∧
      add_bookmarks_to_pdf N (pre ++ [h]) = .ok
        ⟨st.nodes ++ [⟨h.title, h.page - 1, a⟩],
          (st.parent_stack ++
            List.replicate ((h.level - (st.parent_stack.length : Int)).toNat) a) ++
            [some st.nodes.length],
          st.warnings⟩ := by
  obtain ⟨a, ha⟩ : ∃ a, st.parent_stack.getLast? = some a := by
    cases e : st.parent_stack.getLast? with
    | none =>
      rw [List.getLast?_eq_none_iff] at e
      exact absurd e hne
    | some a => exact ⟨a, rfl⟩
  have hlen1 : 1 ≤ st.parent_stack.length := List.length_pos.mpr hne
  have hpop : popLoop st.parent_stack h.level = .ok st.parent_stack :=
    popLoop_of_le st.parent_stack h.level hskip
  have hpad : padLoop st.parent_stack h.level =
      .ok (st.parent_stack ++
        List.replicate ((h.level - (st.parent_stack.length : Int)).toNat) a) :=
    padLoop_eval st.parent_stack h.level a ha
  have hlenpad : (((st.parent_stack ++
      List.replicate ((h.level - (st.parent_stack.length : Int)).toNat) a)).length : Int) =
      h.level := by
    rw [List.length_append, List.length_replicate]
    push_cast
    omega
  refine ⟨a, ha, ?_⟩
  unfold add_bookmarks_to_pdf at hok ⊢
  rw [runFrom_append, hok]
  simp only [exbind_ok]
  rw [runFrom_cons]
  have hpage : ¬(h.page - 1 < 0 ∨ h.page - 1 ≥ (N : Int)) := by omega
  simp only [step]
  rw [if_neg hpage, hpop]
  simp only [exbind_ok]
  rw [hpad]
  simp only [exbind_ok]
  rw [if_pos hlenpad]
  simp only [exbind_ok, expure_eq]
  rw [runFrom_nil]
  rw [ha]
  rfl

/-- C2, witness: a level-4 heading directly after a level-1 heading is
attached under the level-1 node (node index 0), with the stack padded
by repeated references to it. -/
theorem C2_level_skip_attaches_to_deepest_ancestor_witness :
    ∃ a, ([none, some 0] : List (Option Nat)).getLast? = some a ∧
      add_bookmarks_to_pdf 1 ([⟨"A", 1, 1⟩] ++ [⟨"Deep", 4, 1⟩]) = .ok
        ⟨[⟨"A", 0, none⟩] ++ [⟨"Deep", 0, a⟩],
          (([none, some 0] : List (Option Nat)) ++
            List.replicate (((4 : Int) - (([none, some 0] : List (Option Nat)).length : Int)).toNat) a) ++
            [some ([⟨"A", (0 : Int), none⟩] : List OutlineItem).length],
          []⟩ := by
  have := C2_level_skip_attaches_to_deepest_ancestor 1 [⟨"A", 1, 1⟩] ⟨"Deep", 4, 1⟩
    ⟨[⟨"A", 0, none⟩], [none, some 0], []⟩
    (by simp [add_bookmarks_to_pdf, runFrom, initState, step, popLoop_of_le, padLoop_of_ge])
    (by simp) (by simp) (by decide) (by decide)
  exact this

/-- C10: for any input whose levels are positive (as every validated
heading's level is), the run succeeds, the stack is never left empty —
the root sentinel `none` put at index 0 before the loop is still at
index 0 at the end (this holds for every prefix of the input, since
the theorem quantifies over all inputs and the state after a prefix is
the final state of the run on that prefix), so reading the stack top
as the parent is always defined; and whenever a heading of positive
level with a valid page is attached from the reached state, the
gap-filled stack has exactly `level` entries, the new bookmark is
appended — the overwrite branch is unreachable — and immediately after
the attachment the stack has exactly `level + 1` entries. -/
theorem C10_stack_invariant_overwrite_unreachable (N : Nat) (hs : List Heading)
    (hlev : ∀ h ∈ hs, 1 ≤ h.level) :
    ∃ st, add_bookmarks_to_pdf N hs = .ok st ∧
      st.parent_stack ≠ [] ∧
      st.parent_stack.head? = some none ∧
      ∀ h2 : Heading, 1 ≤ h2.level → ¬(h2.page - 1 < 0 ∨ h2.page - 1 ≥ (N : Int)) →
        ∃ popped padded,
          popLoop st.parent_stack h2.level = .ok popped ∧
          padLoop popped h2.level = .ok padded ∧
          (padded.length : Int) = h2.level ∧
          step N st h2 = .ok
            ⟨st.nodes ++ [⟨h2.title, h2.page - 1, popped.getLast?.getD none⟩],
              padded ++ [some st.nodes.length], st.warnings⟩ ∧
          ((padded ++ [some st.nodes.length]).length : Int) = h2.level + 1 := by
  obtain ⟨st, hrun, hhd⟩ := runFrom_inv N hs initState hlev rfl
  refine ⟨st, hrun, ?_, hhd, ?_⟩
  · intro hcon
    rw [hcon] at hhd
    simp at hhd
  · intro h2 hl2 hp2
    obtain ⟨popped, padded, hpop, hpophd, hpad, hlen, hpadhd, hstep⟩ :=
      step_ok_attach N st h2 hl2 hhd hp2
    refine ⟨popped, padded, hpop, hpad, hlen, hstep, ?_⟩
    simp only [List.length_append, List.length_cons, List.length_nil]
    push_cast
    omega

/-- C10, witness. -/
theorem C10_stack_invariant_overwrite_unreachable_witness :
    ∃ st, add_bookmarks_to_pdf 1 [⟨"A", 1, 1⟩] = .ok st ∧
      st.parent_stack ≠ [] ∧
      st.parent_stack.head? = some none ∧
      ∀ h2 : Heading, 1 ≤ h2.level → ¬(h2.page - 1 < 0 ∨ h2.page - 1 ≥ ((1 : Nat) : Int)) →
        ∃ popped padded,
          popLoop st.parent_stack h2.level = .ok popped ∧
          padLoop popped h2.level = .ok padded ∧
          (padded.length : Int) = h2.level ∧
          step 1 st h2 = .ok
            ⟨st.nodes ++ [⟨h2.title, h2.page - 1, popped.getLast?.getD none⟩],
              padded ++ [some st.nodes.length], st.warnings⟩ ∧
          ((padded ++ [some st.nodes.length]).length : Int) = h2.level + 1 :=
  C10_stack_invariant_overwrite_unreachable 1 [⟨"A", 1, 1⟩] (by decide)

/-- C1: on an outline whose pages all lie in [1, N] and whose levels
form a well-formed monotonic sequence (every level at least 1, at most
one more than its predecessor, the first level 1), the builder
succeeds with no warnings and creates exactly one node per heading, in
input order; the parent of each node is `specParent`: `none` for a
level-1 heading, and otherwise the most recent earlier heading whose
level is exactly one less — which, together with the creation order,
is exactly the depth-first structure the levels imply. -/
theorem C1_wellformed_builds_matching_tree (N : Nat) (hs : List Heading)
    (hwf : wellFormed (hs.map Heading.level) = true)
    (hpg : ∀ h ∈ hs, 1 ≤ h.page ∧ h.page ≤ (N : Int)) :
    ∃ st, add_bookmarks_to_pdf N hs = .ok st ∧
      st.warnings = [] ∧
      st.nodes.length = hs.length ∧
      (∀ (i : Nat) (h : Heading), hs.get? i = some h →
        st.nodes.get? i = some ⟨h.title, h.page - 1, specParent hs i⟩ ∧
        (h.level = 1 → specParent hs i = none) ∧
        (∀ j : Nat, specParent hs i = some j →
          j < i ∧ (hs.get? j).map Heading.level = some (h.level - 1) ∧
          ∀ k : Nat, j < k → k < i → (hs.get? k).map Heading.level ≠ some (h.level - 1))) := by
  refine ⟨⟨canonicalNodes hs, canonicalStack hs, []⟩, runFrom_wellFormed N hs hwf hpg, rfl,
    canonicalNodes_length hs, ?_⟩
  intro i h he
  have hi : i < hs.length := by
    by_contra hc
    rw [List.get?_eq_none.mpr (by omega)] at he
    simp at he
  refine ⟨canonicalNodes_get? hs i h he, ?_, ?_⟩
  · intro hl1
    unfold specParent
    rw [he]
    show lastIdxAtLevel (List.take i hs) (h.level - 1) = none
    rw [hl1]
    apply lastIdxAtLevel_none _ _ (by norm_num)
    intro x hx
    exact wellFormed_levels hs hwf x (List.mem_of_mem_take hx)
  · intro j hj
    unfold specParent at hj
    rw [he] at hj
    have hj2 : lastIdxAtLevel (List.take i hs) (h.level - 1) = some j := hj
    obtain ⟨hjlt, hjlev, hjnone⟩ := lastIdxAtLevel_spec (h.level - 1) (hs.take i) j hj2
    have hlen_take : (hs.take i).length = i := by
      rw [List.length_take]
      omega
    rw [hlen_take] at hjlt hjnone
    refine ⟨hjlt, ?_, ?_⟩
    · rw [List.get?_take hjlt] at hjlev
      exact hjlev
    · intro k hk1 hk2
      have := hjnone k hk1 hk2
      rw [List.get?_take hk2] at this
      exact this

/-- C1, witness: the spec example levels 1, 2, 3, 2, 1 on a 3-page
document. -/
theorem C1_wellformed_builds_matching_tree_witness :
    ∃ st, add_bookmarks_to_pdf 3
        [⟨"A", 1, 1⟩, ⟨"B", 2, 1⟩, ⟨"C", 3, 2⟩, ⟨"D", 2, 2⟩, ⟨"E", 1, 3⟩] = .ok st ∧
      st.warnings = [] ∧
      st.nodes.length =
        ([⟨"A", 1, 1⟩, ⟨"B", 2, 1⟩, ⟨"C", 3, 2⟩, ⟨"D", 2, 2⟩, ⟨"E", 1, 3⟩] : List Heading).length ∧
      (∀ (i : Nat) (h : Heading),
        ([⟨"A", 1, 1⟩, ⟨"B", 2, 1⟩, ⟨"C", 3, 2⟩, ⟨"D", 2, 2⟩, ⟨"E", 1, 3⟩] : List Heading).get? i =
          some h →
        st.nodes.get? i = some ⟨h.title, h.page - 1,
          specParent [⟨"A", 1, 1⟩, ⟨"B", 2, 1⟩, ⟨"C", 3, 2⟩, ⟨"D", 2, 2⟩, ⟨"E", 1, 3⟩] i⟩ ∧
        (h.level = 1 →
          specParent [⟨"A", 1, 1⟩, ⟨"B", 2, 1⟩, ⟨"C", 3, 2⟩, ⟨"D", 2, 2⟩, ⟨"E", 1, 3⟩] i = none) ∧
        (∀ j : Nat,
          specParent [⟨"A", 1, 1⟩, ⟨"B", 2, 1⟩, ⟨"C", 3, 2⟩, ⟨"D", 2, 2⟩, ⟨"E", 1, 3⟩] i =
            some j →
          j < i ∧
          (([⟨"A", 1, 1⟩, ⟨"B", 2, 1⟩, ⟨"C", 3, 2⟩, ⟨"D", 2, 2⟩, ⟨"E", 1, 3⟩] :
            List Heading).get? j).map Heading.level = some (h.level - 1) ∧
          ∀ k : Nat, j < k → k < i →
            (([⟨"A", 1, 1⟩, ⟨"B", 2, 1⟩, ⟨"C", 3, 2⟩, ⟨"D", 2, 2⟩, ⟨"E", 1, 3⟩] :
              List Heading).get? k).map Heading.level ≠ some (h.level - 1))) :=
  C1_wellformed_builds_matching_tree 3
    [⟨"A", 1, 1⟩, ⟨"B", 2, 1⟩, ⟨"C", 3, 2⟩, ⟨"D", 2, 2⟩, ⟨"E", 1, 3⟩] (by decide) (by decide)
